import Mathlib

/-!
Verification of the tailscalesd discovery translation pipeline.

The definitions below are a shallow embedding of `tailscalesd.go`: the
`translate` function, the two default filters (`filterEmptyLabels`,
`filterIPv6Addresses`), the `discoveryHandler.ServeHTTP` decision logic, and
the parts of Go's `net` package (`ParseIP`, `IP.To4`, `IP.String`) that the
address filter depends on. Go `map[string]string` values are modelled as
association lists in a canonical deterministic order; all map values built by
this code are determined by their key/value content, so list equality on the
canonical form coincides with Go map equality.
-/

set_option autoImplicit false

namespace Tailscalesd

/-- Association-list model of a Go `map[string]string` value. -/
abbrev LabelMap := List (String × String)

/-- Go map read `v, ok := m[k]`: value of the key when present. -/
def lookupLabel (m : LabelMap) (k : String) : Option String :=
  match m with
  | [] => none
  | (k', v) :: rest => if k' = k then some v else lookupLabel rest k

/-- Go map assignment `m[k] = v`: overwrites the binding when the key is
present, otherwise adds the binding. -/
def mapInsert (m : LabelMap) (k v : String) : LabelMap :=
  match m with
  | [] => [(k, v)]
  | (k', v') :: rest => if k' = k then (k, v) :: rest else (k', v') :: mapInsert rest k v

/-- Modelled from the spec: the `Device` record of §3 of the specification is
declared in a repository file outside `src/`; only its fields, exactly as
consumed by `translate`, are needed here. -/
structure Device where
  Addresses : List String
  API : String
  Authorized : Bool
  ClientVersion : String
  Hostname : String
  ID : String
  Name : String
  OS : String
  Tags : List String
  Tailnet : String
deriving DecidableEq, Repr

/-- A `TargetDescriptor` as Prometheus expects it (tailscalesd.go). -/
structure TargetDescriptor where
  Targets : List String
  Labels : LabelMap
deriving DecidableEq, Repr, Inhabited

def LabelMetaAPI : String := "__meta_tailscale_api"

def LabelMetaDeviceAuthorized : String := "__meta_tailscale_device_authorized"

def LabelMetaDeviceClientVersion : String := "__meta_tailscale_device_client_version"

def LabelMetaDeviceHostname : String := "__meta_tailscale_device_hostname"

def LabelMetaDeviceID : String := "__meta_tailscale_device_id"

def LabelMetaDeviceName : String := "__meta_tailscale_device_name"

def LabelMetaDeviceOS : String := "__meta_tailscale_device_os"

def LabelMetaDeviceTag : String := "__meta_tailscale_device_tag"

def LabelMetaTailnet : String := "__meta_tailscale_tailnet"

/-- Go `filterEmpty` removes entries in a map which have either an empty key or
empty value (tailscalesd.go, lines 60-72). -/
def filterEmpty (m : LabelMap) : LabelMap :=
  m.filter (fun kv => !(kv.1 == "" || kv.2 == ""))

/-- Rendering of a Go `bool` by `fmt.Sprint`. -/
def boolString : Bool → String
  | true => "true"
  | false => "false"

abbrev Filter := TargetDescriptor → TargetDescriptor

/-- The base descriptor built for one device inside `translate`
(tailscalesd.go, lines 104-117): all labels added here, except for tags. -/
def baseTarget (d : Device) : TargetDescriptor :=
  { Targets := d.Addresses
    Labels := [(LabelMetaAPI, d.API),
               (LabelMetaDeviceAuthorized, boolString d.Authorized),
               (LabelMetaDeviceClientVersion, d.ClientVersion),
               (LabelMetaDeviceHostname, d.Hostname),
               (LabelMetaDeviceID, d.ID),
               (LabelMetaDeviceName, d.Name),
               (LabelMetaDeviceOS, d.OS),
               (LabelMetaTailnet, d.Tailnet)] }

/-- The filter-application loop of `translate` (tailscalesd.go, lines 118-120). -/
def applyFilters (filters : List Filter) (td : TargetDescriptor) : TargetDescriptor :=
  filters.foldl (fun t f => f t) td

/-- The tag fan-out loop of `translate` (tailscalesd.go, lines 125-133): one
copy of the filtered descriptor per entry of `Tags`, with the tag label set. -/
def fanOut (td : TargetDescriptor) (tags : List String) : List TargetDescriptor :=
  tags.map (fun t => { td with Labels := mapInsert td.Labels LabelMetaDeviceTag t })

/-- The descriptors contributed by a single device (loop body of `translate`,
tailscalesd.go, lines 103-134). -/
def translateDevice (filters : List Filter) (d : Device) : List TargetDescriptor :=
  let target := applyFilters filters (baseTarget d)
  if d.Tags.isEmpty then [target] else fanOut target d.Tags

/-- Go `translate`: Devices to Prometheus TargetDescriptor
(tailscalesd.go, lines 102-136). -/
def translate (devices : List Device) (filters : List Filter) : List TargetDescriptor :=
  match devices with
  | [] => []
  | d :: rest => translateDevice filters d ++ translate rest filters

/-! ### Model of Go `net.ParseIP`, `IP.To4` and `IP.String`

`filterIPv6Addresses` delegates address handling to Go's `net` package; the
parser below follows the stdlib implementation (`netip.parseIPv4`,
`netip.parseIPv6`, `net.IP.To4`, `net.IP.String`). Addresses are byte lists:
a parsed address is always its 16-byte form, as `net.ParseIP` returns. -/

def isDigit (c : Char) : Bool := decide (48 ≤ c.toNat ∧ c.toNat ≤ 57)

def hexDigit (c : Char) : Option Nat :=
  if 48 ≤ c.toNat ∧ c.toNat ≤ 57 then some (c.toNat - 48)
  else if 97 ≤ c.toNat ∧ c.toNat ≤ 102 then some (c.toNat - 87)
  else if 65 ≤ c.toNat ∧ c.toNat ≤ 70 then some (c.toNat - 55)
  else none

def isHexDigit (c : Char) : Bool := (hexDigit c).isSome

/-- Single pass of Go `netip.parseIPv4Fields`: `val` is the value of the octet
being scanned, `digLen` its number of digits so far, `fields` the completed
octets. An octet with a leading zero, a value above 255, an empty octet, a
fifth octet or a non-digit non-dot character rejects the address. -/
def v4go : List Char → Nat → Nat → List Nat → Option (List Nat)
  | [], val, _, fields =>
      if fields.length < 3 then none else some (fields ++ [val])
  | c :: rest, val, digLen, fields =>
      if isDigit c then
        if digLen = 1 ∧ val = 0 then none
        else if 255 < val * 10 + (c.toNat - 48) then none
        else v4go rest (val * 10 + (c.toNat - 48)) (digLen + 1) fields
      else if c = '.' then
        if digLen = 0 ∨ rest.isEmpty then none
        else if fields.length = 3 then none
        else v4go rest 0 0 (fields ++ [val])
      else none

/-- Model of Go `netip.parseIPv4`: the four octets of a dotted-quad address. -/
def parseIPv4 (s : List Char) : Option (List Nat) :=
  v4go s 0 0 []

/-- Value of a group of at most four hex digits (the scan loop of
`netip.parseIPv6`). -/
def hexVal (digits : List Char) : Nat :=
  digits.foldl (fun acc c => acc * 16 + (hexDigit c).getD 0) 0

/-- Final assembly of `netip.parseIPv6`: reject trailing characters, expand
the `::` ellipsis to the missing zero bytes, and require the address to fill
exactly 16 bytes (with a `::` present only when it expands to at least one
group). -/
def v6finish (s : List Char) (ell : Option Nat) (bytes : List Nat) : Option (List Nat) :=
  if ¬s.isEmpty then none
  else if bytes.length < 16 then
    match ell with
    | none => none
    | some e => some (bytes.take e ++ List.replicate (16 - bytes.length) 0 ++ bytes.drop e)
  else
    match ell with
    | none => some bytes
    | some _ => none

/-- The group loop of Go `netip.parseIPv6`. `ell` is the byte position of the
`::` ellipsis when one was seen, `bytes` the bytes parsed so far. Each
iteration consumes one hex group and extends `bytes` by two, so under the
16-byte guard the loop runs at most nine times and the fuel of 20 used below
is never exhausted. -/
def v6loop : Nat → List Char → Option Nat → List Nat → Option (List Nat)
  | 0, _, _, _ => none
  | fuel + 1, s, ell, bytes =>
    if 16 ≤ bytes.length then v6finish s ell bytes
    else
      let digits := s.takeWhile isHexDigit
      let rest := s.dropWhile isHexDigit
      if 4 < digits.length then none
      else if digits.length = 0 then none
      else if rest.head? = some '.' then
        if ell = none ∧ bytes.length ≠ 12 then none
        else if 12 < bytes.length then none
        else (parseIPv4 s).bind fun ip4 => v6finish [] ell (bytes ++ ip4)
      else if rest = [] then
        v6finish [] ell (bytes ++ [hexVal digits / 256, hexVal digits % 256])
      else if rest.head? = some ':' then
        if rest.tail = [] then none
        else if rest.tail.head? = some ':' then
          if ell.isSome then none
          else if rest.tail.tail = [] then
            v6finish [] (some (bytes.length + 2))
              (bytes ++ [hexVal digits / 256, hexVal digits % 256])
          else
            v6loop fuel rest.tail.tail (some (bytes.length + 2))
              (bytes ++ [hexVal digits / 256, hexVal digits % 256])
        else v6loop fuel rest.tail ell (bytes ++ [hexVal digits / 256, hexVal digits % 256])
      else none

/-- Model of Go `netip.parseIPv6` as used through `net.ParseIP`. A `%` zone
suffix makes `net.ParseIP` reject the address, so `%` is treated as an
invalid character. -/
def parseIPv6 (s : List Char) : Option (List Nat) :=
  if s.take 2 = [':', ':'] then
    if s.drop 2 = [] then some (List.replicate 16 0)
    else v6loop 20 (s.drop 2) (some 0) []
  else v6loop 20 s none []

/-- The dispatch scan of Go `netip.ParseAddr`: the first `.` or `:` in the
string decides between the IPv4 grammar (`some true`) and the IPv6 grammar
(`some false`). -/
def classifyAddr : List Char → Option Bool
  | [] => none
  | c :: rest =>
    if c = '.' then some true
    else if c = ':' then some false
    else classifyAddr rest

/-- The IPv4-mapped 16-byte form `::ffff:a.b.c.d` of a 4-byte address
(`netip.Addr.As16` on an IPv4 address). -/
def v4mapped (b : List Nat) : List Nat :=
  [0, 0, 0, 0, 0, 0, 0, 0, 0, 0, 255, 255] ++ b

/-- Model of Go `net.ParseIP`: the 16-byte form of the parsed address, or
`none` for an invalid address. -/
def parseIP (s : List Char) : Option (List Nat) :=
  if classifyAddr s = some true then Option.map v4mapped (parseIPv4 s)
  else if classifyAddr s = some false then parseIPv6 s
  else none

/-- Model of Go `IP.To4`: the 4-byte form when the address is 4 bytes long or
is an IPv4-mapped 16-byte address, otherwise `none`. -/
def to4 (ip : List Nat) : Option (List Nat) :=
  if ip.length = 4 then some ip
  else if ip.length = 16 ∧ ip.take 12 = [0, 0, 0, 0, 0, 0, 0, 0, 0, 0, 255, 255] then
    some (ip.drop 12)
  else none

def digitChar : Nat → Char
  | 0 => '0'
  | 1 => '1'
  | 2 => '2'
  | 3 => '3'
  | 4 => '4'
  | 5 => '5'
  | 6 => '6'
  | 7 => '7'
  | 8 => '8'
  | 9 => '9'
  | _ => '*'

/-- Decimal form of one octet as Go `IP.String` prints it (`ubtoa`): one to
three digits, no leading zeros. -/
def byteStr (n : Nat) : List Char :=
  if n < 10 then [digitChar n]
  else if n < 100 then [digitChar (n / 10), digitChar (n % 10)]
  else [digitChar (n / 100), digitChar (n / 10 % 10), digitChar (n % 10)]

/-- Model of Go `IP.String` on a 4-byte IPv4 value: canonical dotted-decimal
form. -/
def ipv4String (b : List Nat) : List Char :=
  match b with
  | [a, b2, c, d] => byteStr a ++ '.' :: byteStr b2 ++ '.' :: byteStr c ++ '.' :: byteStr d
  | _ => []

/-- Body of the target loop in `filterIPv6Addresses` (tailscalesd.go, lines
78-87): the normalized IPv4 form of a target address, or `none` when the
target is skipped. -/
def keepIPv4 (s : String) : Option String :=
  (parseIP s.data).bind fun ip =>
    Option.map (fun b => String.mk (ipv4String b)) (to4 ip)

/-- Go `filterIPv6Addresses` (tailscalesd.go, lines 76-92). -/
def filterIPv6Addresses (td : TargetDescriptor) : TargetDescriptor :=
  { Targets := td.Targets.filterMap keepIPv4, Labels := td.Labels }

/-- Go `filterEmptyLabels` (tailscalesd.go, lines 94-99). -/
def filterEmptyLabels (td : TargetDescriptor) : TargetDescriptor :=
  { Targets := td.Targets, Labels := filterEmpty td.Labels }

/-- The default filter list installed by `Export` (tailscalesd.go, line 177). -/
def defaultFilters : List Filter := [filterEmptyLabels, filterIPv6Addresses]

/-! ### Model of the discovery handler -/

/-- Modelled from the spec: `ErrStaleResults` and the `Client` error contract
(§6, §7 of the specification) are declared in repository files outside
`src/`; the handler only compares the returned error against the
distinguished `ErrStaleResults` value, so an error is modelled as either that
value or an upstream error carrying its message. -/
inductive DiscoveryError where
  | staleResults
  | upstream (msg : String)
deriving DecidableEq, Repr

inductive ResponseBody where
  | diagnostic (msg : String)
  | json (targets : List TargetDescriptor)
deriving DecidableEq, Repr

structure Response where
  status : Nat
  contentType : Option String
  body : ResponseBody
deriving DecidableEq, Repr

/-- Decision logic of `discoveryHandler.ServeHTTP` (tailscalesd.go, lines
143-170) as a function of the result of `ts.Devices`. JSON encoding of
`[]TargetDescriptor` (slices and string maps of strings) cannot fail, so the
encoder-error branch of the source is vacuous and the JSON payload is
modelled as the encoded descriptor list itself. -/
def serveHTTP (filters : List Filter) (devices : List Device)
    (err : Option DiscoveryError) : Response :=
  match err with
  | some (DiscoveryError.upstream msg) =>
    { status := 500
      contentType := none
      body := ResponseBody.diagnostic ("Failed to discover Tailscale devices: " ++ msg) }
  | _ =>
    { status := 200
      contentType := some "application/json"
      body := ResponseBody.json (translate devices filters) }

/-- Go `Export` wires the default filters into the discovery handler
(tailscalesd.go, lines 173-179). -/
def exportHandler (devices : List Device) (err : Option DiscoveryError) : Response :=
  serveHTTP defaultFilters devices err

/-- The eight fixed label keys of the base descriptor, in construction order. -/
def eightLabelKeys : List String :=
  [LabelMetaAPI, LabelMetaDeviceAuthorized, LabelMetaDeviceClientVersion,
   LabelMetaDeviceHostname, LabelMetaDeviceID, LabelMetaDeviceName,
   LabelMetaDeviceOS, LabelMetaTailnet]

/-- Sample device carrying two distinct tags. -/
def devTagAB : Device :=
  { Addresses := ["100.64.0.1"]
    API := "api.tailscale.com"
    Authorized := true
    ClientVersion := "1.36.0"
    Hostname := "host-a"
    ID := "12345"
    Name := "host-a.example.com"
    OS := "linux"
    Tags := ["tag:a", "tag:b"]
    Tailnet := "example.com" }

/-- Sample device carrying one empty-string tag. -/
def devEmptyTag : Device :=
  { Addresses := []
    API := "api.tailscale.com"
    Authorized := true
    ClientVersion := "1.36.0"
    Hostname := "host-b"
    ID := "23456"
    Name := "host-b.example.com"
    OS := "linux"
    Tags := [""]
    Tailnet := "example.com" }

/-- Sample device whose `Tags` sequence repeats one tag. -/
def devDupTag : Device :=
  { Addresses := []
    API := "api.tailscale.com"
    Authorized := true
    ClientVersion := "1.36.0"
    Hostname := "host-c"
    ID := "34567"
    Name := "host-c.example.com"
    OS := "linux"
    Tags := ["tag:a", "tag:a"]
    Tailnet := "example.com" }

/-- Sample device with an empty `ClientVersion`, as the local API reports. -/
def devNoVersion : Device :=
  { Addresses := []
    API := "localhost"
    Authorized := true
    ClientVersion := ""
    Hostname := "host-d"
    ID := "45678"
    Name := ""
    OS := "linux"
    Tags := ["tag:a"]
    Tailnet := "" }

/-- Sample device whose addresses are all dropped by the address filter. -/
def devBadAddrs : Device :=
  { Addresses := ["2001:db8::1", "not-an-ip"]
    API := "api.tailscale.com"
    Authorized := true
    ClientVersion := "1.36.0"
    Hostname := "host-e"
    ID := "56789"
    Name := "host-e.example.com"
    OS := "linux"
    Tags := []
    Tailnet := "example.com" }

example : keepIPv4 "100.64.0.1" = some "100.64.0.1" := rfl

example : keepIPv4 "2001:db8::1" = none := rfl

example : keepIPv4 "not-an-ip" = none := rfl

example : keepIPv4 "::ffff:102:304" = some "1.2.3.4" := rfl

example : keepIPv4 "::ffff:1.2.3.4" = some "1.2.3.4" := rfl

example : keepIPv4 "::1" = none := rfl

example : keepIPv4 "0.0.0.0" = some "0.0.0.0" := rfl

example : keepIPv4 "01.2.3.4" = none := rfl

example : keepIPv4 "256.1.1.1" = none := rfl

example : keepIPv4 "1.2.3" = none := rfl

example : keepIPv4 "1.2.3.4.5" = none := rfl

example : keepIPv4 "fe80::1%eth0" = none := rfl

example : keepIPv4 "1:2:3:4:5:6:7:8" = none := rfl

example : keepIPv4 "::" = none := rfl

/-! ### Helper lemmas on the label-map model -/

lemma lookupLabel_cons_self (k v : String) (m : LabelMap) :
    lookupLabel ((k, v) :: m) k = some v := by
  simp [lookupLabel]

lemma lookupLabel_cons_ne (k' v' k : String) (m : LabelMap) (h : k' ≠ k) :
    lookupLabel ((k', v') :: m) k = lookupLabel m k := by
  simp [lookupLabel, h]

lemma lookupLabel_mapInsert_self (m : LabelMap) (k v : String) :
    lookupLabel (mapInsert m k v) k = some v := by
  induction m with
  | nil => simp [mapInsert, lookupLabel]
  | cons kv rest ih =>
    obtain ⟨k', v'⟩ := kv
    by_cases h : k' = k
    · simp [mapInsert, h, lookupLabel]
    · simp [mapInsert, h, lookupLabel, ih]

lemma lookupLabel_mapInsert_ne (m : LabelMap) (k v k' : String) (h : k ≠ k') :
    lookupLabel (mapInsert m k v) k' = lookupLabel m k' := by
  induction m with
  | nil => simp [mapInsert, lookupLabel, h]
  | cons kv rest ih =>
    obtain ⟨a, b⟩ := kv
    by_cases ha : a = k
    · subst ha; simp [mapInsert, lookupLabel, h]
    · simp [mapInsert, ha, lookupLabel, ih]

lemma mem_mapInsert (m : LabelMap) (k v : String) (kv : String × String)
    (h : kv ∈ mapInsert m k v) : kv = (k, v) ∨ kv ∈ m := by
  induction m with
  | nil => simpa [mapInsert] using h
  | cons a rest ih =>
    obtain ⟨k', v'⟩ := a
    by_cases hk : k' = k
    · rw [mapInsert, if_pos hk] at h
      rcases List.mem_cons.1 h with h | h
      · exact Or.inl h
      · exact Or.inr (List.mem_cons_of_mem _ h)
    · rw [mapInsert, if_neg hk] at h
      rcases List.mem_cons.1 h with h | h
      · exact Or.inr (h ▸ List.mem_cons_self _ _)
      · rcases ih h with h' | h'
        · exact Or.inl h'
        · exact Or.inr (List.mem_cons_of_mem _ h')

lemma filter_mapInsert_ne (m : LabelMap) (k v : String) :
    (mapInsert m k v).filter (fun kv => !(kv.1 == k))
      = m.filter (fun kv => !(kv.1 == k)) := by
  induction m with
  | nil => simp [mapInsert]
  | cons a rest ih =>
    obtain ⟨k', v'⟩ := a
    by_cases hk : k' = k
    · subst hk; simp [mapInsert]
    · simp [mapInsert, hk, ih]

lemma lookupLabel_filter_none (p : String × String → Bool) (m : LabelMap) (k : String)
    (h : ∀ v, (k, v) ∈ m → p (k, v) = false) :
    lookupLabel (m.filter p) k = none := by
  induction m with
  | nil => simp [lookupLabel]
  | cons a rest ih =>
    obtain ⟨k', v'⟩ := a
    by_cases hp : p (k', v') = true
    · rw [List.filter_cons_of_pos hp]
      by_cases hk : k' = k
      · subst hk
        exact absurd hp (by simp [h v' (List.mem_cons_self _ _)])
      · rw [lookupLabel_cons_ne _ _ _ _ hk]
        exact ih fun v hv => h v (List.mem_cons_of_mem _ hv)
    · rw [List.filter_cons_of_neg (by simpa using hp)]
      exact ih fun v hv => h v (List.mem_cons_of_mem _ hv)

lemma mem_filterEmpty (m : LabelMap) (kv : String × String) (h : kv ∈ filterEmpty m) :
    kv ∈ m ∧ kv.1 ≠ "" ∧ kv.2 ≠ "" := by
  unfold filterEmpty at h
  rw [List.mem_filter] at h
  have h2 : ¬kv.1 = "" ∧ ¬kv.2 = "" := by simpa using h.2
  exact ⟨h.1, h2.1, h2.2⟩

/-! ### Helper lemmas on the translation pipeline -/

lemma translate_cons (d : Device) (rest : List Device) (filters : List Filter) :
    translate (d :: rest) filters = translateDevice filters d ++ translate rest filters := rfl

lemma translate_append (l1 l2 : List Device) (filters : List Filter) :
    translate (l1 ++ l2) filters = translate l1 filters ++ translate l2 filters := by
  induction l1 with
  | nil => rfl
  | cons d rest ih => simp [translate_cons, ih, List.append_assoc]

lemma translate_eq_flatMap (devices : List Device) (filters : List Filter) :
    translate devices filters = devices.flatMap (translateDevice filters) := by
  induction devices with
  | nil => rfl
  | cons d rest ih => simp [translate_cons, ih, List.flatMap_cons]

lemma applyFilters_default (td : TargetDescriptor) :
    applyFilters defaultFilters td = filterIPv6Addresses (filterEmptyLabels td) := rfl

lemma labels_applyFilters_default (td : TargetDescriptor) :
    (applyFilters defaultFilters td).Labels = filterEmpty td.Labels := rfl

lemma translateDevice_length (filters : List Filter) (d : Device) :
    (translateDevice filters d).length = if d.Tags.isEmpty then 1 else d.Tags.length := by
  by_cases h : d.Tags.isEmpty <;> simp [translateDevice, fanOut, h]

lemma mem_translateDevice (filters : List Filter) (d : Device) (td : TargetDescriptor)
    (h : td ∈ translateDevice filters d) :
    td = applyFilters filters (baseTarget d) ∨
      ∃ t ∈ d.Tags,
        td = { applyFilters filters (baseTarget d) with
                 Labels := mapInsert (applyFilters filters (baseTarget d)).Labels
                   LabelMetaDeviceTag t } := by
  unfold translateDevice fanOut at h
  by_cases he : d.Tags.isEmpty
  · simp [he] at h
    exact Or.inl h
  · simp [he] at h
    obtain ⟨t, ht, hh⟩ := h
    exact Or.inr ⟨t, ht, hh.symm⟩

lemma targets_translateDevice (filters : List Filter) (d : Device) (td : TargetDescriptor)
    (h : td ∈ translateDevice filters d) :
    td.Targets = (applyFilters filters (baseTarget d)).Targets := by
  rcases mem_translateDevice filters d td h with h' | ⟨t, _, h'⟩ <;> rw [h']

/-! ### Helper lemmas on the address model: printing round-trips -/

lemma digitChar_spec (d : Nat) (h : d ≤ 9) :
    isDigit (digitChar d) = true ∧ (digitChar d).toNat = 48 + d ∧
      digitChar d ≠ '.' ∧ digitChar d ≠ ':' := by
  interval_cases d <;> exact ⟨by decide, by decide, by decide, by decide⟩

lemma byteStr_ne_nil (n : Nat) : byteStr n ≠ [] := by
  unfold byteStr
  by_cases h1 : n < 10 <;> by_cases h2 : n < 100 <;> simp [h1, h2]

lemma byteStr_chars (n : Nat) (h : n ≤ 255) :
    ∀ c ∈ byteStr n, c ≠ '.' ∧ c ≠ ':' := by
  intro c hc
  unfold byteStr at hc
  by_cases h1 : n < 10
  · rw [if_pos h1] at hc
    rcases List.mem_singleton.1 hc with rfl
    exact (digitChar_spec n (by omega)).2.2
  · rw [if_neg h1] at hc
    by_cases h2 : n < 100
    · rw [if_pos h2] at hc
      simp only [List.mem_cons, List.mem_singleton, List.not_mem_nil, or_false] at hc
      rcases hc with rfl | rfl
      · exact (digitChar_spec (n / 10) (by omega)).2.2
      · exact (digitChar_spec (n % 10) (by omega)).2.2
    · rw [if_neg h2] at hc
      simp only [List.mem_cons, List.mem_singleton, List.not_mem_nil, or_false] at hc
      rcases hc with rfl | rfl | rfl
      · exact (digitChar_spec (n / 100) (by omega)).2.2
      · exact (digitChar_spec (n / 10 % 10) (by omega)).2.2
      · exact (digitChar_spec (n % 10) (by omega)).2.2

lemma v4go_digit_eq (c : Char) (rest : List Char) (val digLen val2 : Nat)
    (fields : List Nat) (hc : isDigit c = true) (h1 : ¬(digLen = 1 ∧ val = 0))
    (hv : val * 10 + (c.toNat - 48) = val2) (h2 : val2 ≤ 255) :
    v4go (c :: rest) val digLen fields = v4go rest val2 (digLen + 1) fields := by
  simp only [v4go, hc, if_true]
  rw [hv, if_neg h1, if_neg (by omega)]

lemma v4go_dot (rest : List Char) (val digLen : Nat) (fields : List Nat)
    (h1 : digLen ≠ 0) (h2 : rest ≠ []) (h3 : fields.length ≠ 3) :
    v4go ('.' :: rest) val digLen fields = v4go rest 0 0 (fields ++ [val]) := by
  have hd : isDigit '.' = false := by decide
  simp [v4go, hd, h1, h2, h3]

lemma v4go_nil_full (val digLen : Nat) (fields : List Nat) (h : fields.length = 3) :
    v4go [] val digLen fields = some (fields ++ [val]) := by
  simp only [v4go]
  rw [if_neg (by omega)]

lemma v4go_byteStr (n : Nat) (h : n ≤ 255) (rest : List Char) (fields : List Nat) :
    ∃ L, L ≠ 0 ∧ v4go (byteStr n ++ rest) 0 0 fields = v4go rest n L fields := by
  by_cases h1 : n < 10
  · refine ⟨1, by omega, ?_⟩
    have e : byteStr n = [digitChar n] := by simp [byteStr, h1]
    have hd := digitChar_spec n (by omega)
    rw [e, List.singleton_append,
      v4go_digit_eq _ _ _ _ n _ hd.1 (by omega) (by rw [hd.2.1]; omega) (by omega)]
  · by_cases h2 : n < 100
    · refine ⟨2, by omega, ?_⟩
      have e : byteStr n = [digitChar (n / 10), digitChar (n % 10)] := by
        simp [byteStr, h1, h2]
      have hd1 := digitChar_spec (n / 10) (by omega)
      have hd2 := digitChar_spec (n % 10) (by omega)
      rw [e]
      simp only [List.cons_append, List.nil_append]
      rw [v4go_digit_eq _ _ _ _ (n / 10) _ hd1.1 (by omega)
        (by rw [hd1.2.1]; omega) (by omega)]
      rw [v4go_digit_eq _ _ _ _ n _ hd2.1 (by omega)
        (by rw [hd2.2.1]; omega) (by omega)]
    · refine ⟨3, by omega, ?_⟩
      have e : byteStr n
          = [digitChar (n / 100), digitChar (n / 10 % 10), digitChar (n % 10)] := by
        simp [byteStr, h1, h2]
      have hd1 := digitChar_spec (n / 100) (by omega)
      have hd2 := digitChar_spec (n / 10 % 10) (by omega)
      have hd3 := digitChar_spec (n % 10) (by omega)
      rw [e]
      simp only [List.cons_append, List.nil_append]
      rw [v4go_digit_eq _ _ _ _ (n / 100) _ hd1.1 (by omega)
        (by rw [hd1.2.1]; omega) (by omega)]
      rw [v4go_digit_eq _ _ _ _ (n / 10) _ hd2.1 (by omega)
        (by rw [hd2.2.1]; omega) (by omega)]
      rw [v4go_digit_eq _ _ _ _ n _ hd3.1 (by omega)
        (by rw [hd3.2.1]; omega) (by omega)]

lemma parseIPv4_ipv4String (a b c d : Nat) (ha : a ≤ 255) (hb : b ≤ 255)
    (hc : c ≤ 255) (hd : d ≤ 255) :
    parseIPv4 (ipv4String [a, b, c, d]) = some [a, b, c, d] := by
  have e : ipv4String [a, b, c, d]
      = byteStr a ++ '.' :: (byteStr b ++ '.' :: (byteStr c ++ '.' :: byteStr d)) := by
    simp [ipv4String]
  unfold parseIPv4
  rw [e]
  obtain ⟨L1, hL1, e1⟩ :=
    v4go_byteStr a ha ('.' :: (byteStr b ++ '.' :: (byteStr c ++ '.' :: byteStr d))) []
  rw [e1, v4go_dot _ _ _ _ hL1
    (fun hcon => byteStr_ne_nil b (List.append_eq_nil.1 hcon).1) (by simp)]
  obtain ⟨L2, hL2, e2⟩ :=
    v4go_byteStr b hb ('.' :: (byteStr c ++ '.' :: byteStr d)) ([] ++ [a])
  rw [e2, v4go_dot _ _ _ _ hL2
    (fun hcon => byteStr_ne_nil c (List.append_eq_nil.1 hcon).1) (by simp)]
  obtain ⟨L3, hL3, e3⟩ := v4go_byteStr c hc ('.' :: byteStr d) (([] ++ [a]) ++ [b])
  rw [e3, v4go_dot _ _ _ _ hL3 (byteStr_ne_nil d) (by simp)]
  obtain ⟨L4, hL4, e4⟩ := v4go_byteStr d hd [] ((([] ++ [a]) ++ [b]) ++ [c])
  rw [List.append_nil] at e4
  rw [e4, v4go_nil_full _ _ _ (by simp)]
  simp

lemma classifyAddr_append_dot (l : List Char) (r : List Char)
    (h : ∀ c ∈ l, c ≠ '.' ∧ c ≠ ':') :
    classifyAddr (l ++ '.' :: r) = some true := by
  induction l with
  | nil => simp [classifyAddr]
  | cons c cs ih =>
    have hc := h c (List.mem_cons_self _ _)
    rw [List.cons_append]
    simp only [classifyAddr]
    rw [if_neg hc.1, if_neg hc.2]
    exact ih fun c' h' => h c' (List.mem_cons_of_mem _ h')

lemma to4_v4mapped (b : List Nat) (h : b.length = 4) :
    to4 (v4mapped b) = some b := by
  unfold to4 v4mapped
  rw [if_neg (by simp [h]), if_pos ⟨by simp [h], by rw [List.take_left' (by rfl)]⟩]
  rw [List.drop_left' (by rfl)]

lemma keepIPv4_ipv4String (a b c d : Nat) (ha : a ≤ 255) (hb : b ≤ 255)
    (hc : c ≤ 255) (hd : d ≤ 255) :
    keepIPv4 (String.mk (ipv4String [a, b, c, d]))
      = some (String.mk (ipv4String [a, b, c, d])) := by
  have e : ipv4String [a, b, c, d]
      = byteStr a ++ '.' :: (byteStr b ++ '.' :: (byteStr c ++ '.' :: byteStr d)) := by
    simp [ipv4String]
  have hclass : classifyAddr (ipv4String [a, b, c, d]) = some true := by
    rw [e]
    exact classifyAddr_append_dot (byteStr a) _ (byteStr_chars a ha)
  have hparse : parseIP (ipv4String [a, b, c, d]) = some (v4mapped [a, b, c, d]) := by
    unfold parseIP
    rw [if_pos hclass, parseIPv4_ipv4String a b c d ha hb hc hd]
    rfl
  show (parseIP (ipv4String [a, b, c, d])).bind (fun ip =>
    Option.map (fun b => String.mk (ipv4String b)) (to4 ip)) = _
  rw [hparse, Option.some_bind, to4_v4mapped _ (by simp)]
  rfl

/-! ### Helper lemmas on the address model: parsed bytes are octets -/

lemma hexDigit_getD_le (c : Char) : (hexDigit c).getD 0 ≤ 15 := by
  unfold hexDigit
  by_cases h1 : 48 ≤ c.toNat ∧ c.toNat ≤ 57
  · rw [if_pos h1]; simp only [Option.getD_some]; omega
  · rw [if_neg h1]
    by_cases h2 : 97 ≤ c.toNat ∧ c.toNat ≤ 102
    · rw [if_pos h2]; simp only [Option.getD_some]; omega
    · rw [if_neg h2]
      by_cases h3 : 65 ≤ c.toNat ∧ c.toNat ≤ 70
      · rw [if_pos h3]; simp only [Option.getD_some]; omega
      · rw [if_neg h3]; simp

lemma hexVal_foldl_lt (l : List Char) : ∀ acc : Nat,
    l.foldl (fun acc c => acc * 16 + (hexDigit c).getD 0) acc
      < (acc + 1) * 16 ^ l.length := by
  induction l with
  | nil => intro acc; simp
  | cons c cs ih =>
    intro acc
    have hd := hexDigit_getD_le c
    rw [List.foldl_cons]
    have h1 := ih (acc * 16 + (hexDigit c).getD 0)
    have h2 : (acc * 16 + (hexDigit c).getD 0 + 1) * 16 ^ cs.length
        ≤ (acc + 1) * 16 ^ (cs.length + 1) := by
      rw [pow_succ]
      calc (acc * 16 + (hexDigit c).getD 0 + 1) * 16 ^ cs.length
          ≤ ((acc + 1) * 16) * 16 ^ cs.length := Nat.mul_le_mul_right _ (by omega)
        _ = (acc + 1) * (16 ^ cs.length * 16) := by ring
    simpa using lt_of_lt_of_le h1 h2

lemma hexVal_le (digits : List Char) (h : digits.length ≤ 4) : hexVal digits ≤ 65535 := by
  have h1 : hexVal digits < (0 + 1) * 16 ^ digits.length := hexVal_foldl_lt digits 0
  have h2 : (16 : Nat) ^ digits.length ≤ 16 ^ 4 := Nat.pow_le_pow_right (by omega) h
  have h3 : (16 : Nat) ^ 4 = 65536 := by norm_num
  omega

lemma v4go_bound (s : List Char) : ∀ (val digLen : Nat) (fields out : List Nat),
    v4go s val digLen fields = some out → val ≤ 255 →
    (∀ x ∈ fields, x ≤ 255) → fields.length ≤ 3 →
    out.length = 4 ∧ ∀ x ∈ out, x ≤ 255 := by
  induction s with
  | nil =>
    intro val digLen fields out h hv hf hl
    simp only [v4go] at h
    by_cases h3 : fields.length < 3
    · rw [if_pos h3] at h; exact Option.noConfusion h
    · rw [if_neg h3] at h
      obtain rfl : fields ++ [val] = out := by simpa using h
      refine ⟨by simp; omega, ?_⟩
      intro x hx
      rcases List.mem_append.1 hx with hx | hx
      · exact hf x hx
      · rw [List.mem_singleton] at hx; omega
  | cons c rest ih =>
    intro val digLen fields out h hv hf hl
    simp only [v4go] at h
    by_cases hdig : isDigit c = true
    · rw [if_pos hdig] at h
      by_cases h1 : digLen = 1 ∧ val = 0
      · rw [if_pos h1] at h; exact Option.noConfusion h
      · rw [if_neg h1] at h
        by_cases h2 : 255 < val * 10 + (c.toNat - 48)
        · rw [if_pos h2] at h; exact Option.noConfusion h
        · rw [if_neg h2] at h
          exact ih _ _ _ _ h (by omega) hf hl
    · rw [if_neg hdig] at h
      by_cases hdot : c = '.'
      · rw [if_pos hdot] at h
        by_cases h1 : digLen = 0 ∨ rest.isEmpty = true
        · rw [if_pos h1] at h; exact Option.noConfusion h
        · rw [if_neg h1] at h
          by_cases h3 : fields.length = 3
          · rw [if_pos h3] at h; exact Option.noConfusion h
          · rw [if_neg h3] at h
            refine ih _ _ _ _ h (by omega) ?_ (by simp; omega)
            intro x hx
            rcases List.mem_append.1 hx with hx | hx
            · exact hf x hx
            · rw [List.mem_singleton] at hx; omega
      · rw [if_neg hdot] at h; exact Option.noConfusion h

lemma v6finish_bound (s : List Char) (ell : Option Nat) (bytes out : List Nat)
    (h : v6finish s ell bytes = some out) (hb : ∀ x ∈ bytes, x ≤ 255) :
    ∀ x ∈ out, x ≤ 255 := by
  unfold v6finish at h
  by_cases h1 : ¬s.isEmpty
  · rw [if_pos h1] at h; exact Option.noConfusion h
  · rw [if_neg h1] at h
    by_cases h2 : bytes.length < 16
    · rw [if_pos h2] at h
      cases ell with
      | none => exact Option.noConfusion h
      | some e =>
        obtain rfl : bytes.take e ++ List.replicate (16 - bytes.length) 0 ++ bytes.drop e
            = out := by simpa using h
        intro x hx
        rcases List.mem_append.1 hx with hx | hx
        · rcases List.mem_append.1 hx with hx | hx
          · exact hb x (List.take_subset _ _ hx)
          · rw [List.eq_of_mem_replicate hx]; omega
        · exact hb x (List.drop_subset _ _ hx)
    · rw [if_neg h2] at h
      cases ell with
      | none =>
        obtain rfl : bytes = out := by simpa using h
        exact hb
      | some e => exact Option.noConfusion h

lemma v6loop_bound (fuel : Nat) : ∀ (s : List Char) (ell : Option Nat) (bytes out : List Nat),
    v6loop fuel s ell bytes = some out → (∀ x ∈ bytes, x ≤ 255) →
    ∀ x ∈ out, x ≤ 255 := by
  induction fuel with
  | zero => intro s ell bytes out h _; exact Option.noConfusion h
  | succ fuel ih =>
    intro s ell bytes out h hb
    simp only [v6loop] at h
    by_cases h16 : 16 ≤ bytes.length
    · rw [if_pos h16] at h
      exact v6finish_bound _ _ _ _ h hb
    · rw [if_neg h16] at h
      by_cases h4 : 4 < (s.takeWhile isHexDigit).length
      · rw [if_pos h4] at h; exact Option.noConfusion h
      · rw [if_neg h4] at h
        by_cases h0 : (s.takeWhile isHexDigit).length = 0
        · rw [if_pos h0] at h; exact Option.noConfusion h
        · rw [if_neg h0] at h
          have hbytes2 : ∀ x ∈ bytes ++ [hexVal (s.takeWhile isHexDigit) / 256,
              hexVal (s.takeWhile isHexDigit) % 256], x ≤ 255 := by
            have hhex : hexVal (s.takeWhile isHexDigit) ≤ 65535 := hexVal_le _ (by omega)
            intro x hx
            rcases List.mem_append.1 hx with hx | hx
            · exact hb x hx
            · simp only [List.mem_cons, List.mem_singleton, List.not_mem_nil,
                or_false] at hx
              rcases hx with rfl | rfl <;> omega
          by_cases hdot : (s.dropWhile isHexDigit).head? = some '.'
          · rw [if_pos hdot] at h
            by_cases hc1 : ell = none ∧ bytes.length ≠ 12
            · rw [if_pos hc1] at h; exact Option.noConfusion h
            · rw [if_neg hc1] at h
              by_cases hc2 : 12 < bytes.length
              · rw [if_pos hc2] at h; exact Option.noConfusion h
              · rw [if_neg hc2] at h
                cases hp : parseIPv4 s with
                | none => rw [hp, Option.none_bind] at h; exact Option.noConfusion h
                | some ip4 =>
                  rw [hp, Option.some_bind] at h
                  refine v6finish_bound _ _ _ _ h ?_
                  intro x hx
                  rcases List.mem_append.1 hx with hx | hx
                  · exact hb x hx
                  · exact (v4go_bound _ _ _ _ _ hp (by omega) (by simp) (by simp)).2 x hx
          · rw [if_neg hdot] at h
            by_cases hnil : s.dropWhile isHexDigit = []
            · rw [if_pos hnil] at h
              exact v6finish_bound _ _ _ _ h hbytes2
            · rw [if_neg hnil] at h
              by_cases hcolon : (s.dropWhile isHexDigit).head? = some ':'
              · rw [if_pos hcolon] at h
                by_cases ht1 : (s.dropWhile isHexDigit).tail = []
                · rw [if_pos ht1] at h; exact Option.noConfusion h
                · rw [if_neg ht1] at h
                  by_cases ht2 : (s.dropWhile isHexDigit).tail.head? = some ':'
                  · rw [if_pos ht2] at h
                    by_cases hsome : ell.isSome = true
                    · rw [if_pos hsome] at h; exact Option.noConfusion h
                    · rw [if_neg hsome] at h
                      by_cases ht3 : (s.dropWhile isHexDigit).tail.tail = []
                      · rw [if_pos ht3] at h
                        exact v6finish_bound _ _ _ _ h hbytes2
                      · rw [if_neg ht3] at h
                        exact ih _ _ _ _ h hbytes2
                  · rw [if_neg ht2] at h
                    exact ih _ _ _ _ h hbytes2
              · rw [if_neg hcolon] at h; exact Option.noConfusion h

lemma parseIPv6_bound (s : List Char) (ip : List Nat) (h : parseIPv6 s = some ip) :
    ∀ x ∈ ip, x ≤ 255 := by
  unfold parseIPv6 at h
  by_cases h2 : s.take 2 = [':', ':']
  · rw [if_pos h2] at h
    by_cases hd : s.drop 2 = []
    · rw [if_pos hd] at h
      obtain rfl : List.replicate 16 0 = ip := by simpa using h
      intro x hx
      rw [List.eq_of_mem_replicate hx]
      omega
    · rw [if_neg hd] at h
      exact v6loop_bound 20 _ _ _ _ h (by simp)
  · rw [if_neg h2] at h
    exact v6loop_bound 20 _ _ _ _ h (by simp)

lemma parseIP_bound (s : List Char) (ip : List Nat) (h : parseIP s = some ip) :
    ∀ x ∈ ip, x ≤ 255 := by
  unfold parseIP at h
  by_cases hc1 : classifyAddr s = some true
  · rw [if_pos hc1] at h
    cases hp : parseIPv4 s with
    | none => rw [hp] at h; exact Option.noConfusion h
    | some b4 =>
      rw [hp] at h
      obtain rfl : v4mapped b4 = ip := by simpa using h
      intro x hx
      unfold v4mapped at hx
      rcases List.mem_append.1 hx with hx | hx
      · simp only [List.mem_cons, List.mem_singleton, List.not_mem_nil, or_false] at hx
        rcases hx with rfl | rfl | rfl | rfl | rfl | rfl | rfl | rfl | rfl | rfl | rfl | rfl
          <;> omega
      · exact (v4go_bound _ _ _ _ _ hp (by omega) (by simp) (by simp)).2 x hx
  · rw [if_neg hc1] at h
    by_cases hc2 : classifyAddr s = some false
    · rw [if_pos hc2] at h
      exact parseIPv6_bound s ip h
    · rw [if_neg hc2] at h
      exact Option.noConfusion h

lemma keepIPv4_some (s t : String) (h : keepIPv4 s = some t) :
    ∃ a b c d : Nat, a ≤ 255 ∧ b ≤ 255 ∧ c ≤ 255 ∧ d ≤ 255 ∧
      t = String.mk (ipv4String [a, b, c, d]) := by
  unfold keepIPv4 at h
  cases hp : parseIP s.data with
  | none => rw [hp, Option.none_bind] at h; exact Option.noConfusion h
  | some ip =>
    rw [hp, Option.some_bind] at h
    cases ht : to4 ip with
    | none => rw [ht] at h; exact Option.noConfusion h
    | some b4 =>
      rw [ht] at h
      have hip := parseIP_bound _ _ hp
      have hb4 : b4.length = 4 ∧ ∀ x ∈ b4, x ≤ 255 := by
        unfold to4 at ht
        by_cases h4 : ip.length = 4
        · rw [if_pos h4] at ht
          obtain rfl : ip = b4 := by simpa using ht
          exact ⟨h4, hip⟩
        · rw [if_neg h4] at ht
          by_cases h16 : ip.length = 16
              ∧ ip.take 12 = [0, 0, 0, 0, 0, 0, 0, 0, 0, 0, 255, 255]
          · rw [if_pos h16] at ht
            obtain rfl : ip.drop 12 = b4 := by simpa using ht
            refine ⟨by simp [h16.1], ?_⟩
            intro x hx
            exact hip x (List.drop_subset _ _ hx)
          · rw [if_neg h16] at ht; exact Option.noConfusion ht
      obtain ⟨hlen, hbnd⟩ := hb4
      have ht' : t = String.mk (ipv4String b4) := by
        have := Option.some.inj h
        exact this.symm
      rcases b4 with _ | ⟨a, b4⟩; · simp at hlen
      rcases b4 with _ | ⟨b, b4⟩; · simp at hlen
      rcases b4 with _ | ⟨c, b4⟩; · simp at hlen
      rcases b4 with _ | ⟨d, b4⟩; · simp at hlen
      rcases b4 with _ | ⟨e, b4⟩
      · exact ⟨a, b, c, d, hbnd a (by simp), hbnd b (by simp), hbnd c (by simp),
          hbnd d (by simp), ht'⟩
      · simp at hlen

lemma keepIPv4_idem (s t : String) (h : keepIPv4 s = some t) : keepIPv4 t = some t := by
  obtain ⟨a, b, c, d, ha, hb, hc, hd, rfl⟩ := keepIPv4_some s t h
  exact keepIPv4_ipv4String a b c d ha hb hc hd

lemma filterMap_keepIPv4_idem (l : List String) :
    (l.filterMap keepIPv4).filterMap keepIPv4 = l.filterMap keepIPv4 := by
  induction l with
  | nil => rfl
  | cons s rest ih =>
    cases h : keepIPv4 s with
    | none => simp [List.filterMap_cons, h, ih]
    | some t => simp [List.filterMap_cons, h, keepIPv4_idem s t h, ih]

lemma keepIPv4_of_mem_filterMap (l : List String) (t : String)
    (h : t ∈ l.filterMap keepIPv4) : keepIPv4 t = some t := by
  rw [List.mem_filterMap] at h
  obtain ⟨s, _, hs⟩ := h
  exact keepIPv4_idem s t hs

/-! ### Helper lemmas on label lookups through the pipeline -/

lemma lookup_base_isSome (d : Device) (k : String) (hk : k ∈ eightLabelKeys) :
    (lookupLabel (baseTarget d).Labels k).isSome = true := by
  simp only [eightLabelKeys, List.mem_cons, List.mem_singleton, List.not_mem_nil,
    or_false] at hk
  rcases hk with rfl | rfl | rfl | rfl | rfl | rfl | rfl | rfl <;> rfl

lemma lookup_base_insert_isSome (d : Device) (t : String) (k : String)
    (hk : k ∈ eightLabelKeys) :
    (lookupLabel (mapInsert (baseTarget d).Labels LabelMetaDeviceTag t) k).isSome
      = true := by
  simp only [eightLabelKeys, List.mem_cons, List.mem_singleton, List.not_mem_nil,
    or_false] at hk
  rcases hk with rfl | rfl | rfl | rfl | rfl | rfl | rfl | rfl <;>
    (rw [lookupLabel_mapInsert_ne _ _ _ _ (by decide)]; rfl)

lemma translate_single_lookup_none (d : Device) (K : String)
    (hKtag : K ≠ LabelMetaDeviceTag)
    (hnone : lookupLabel (filterEmpty (baseTarget d).Labels) K = none) :
    ∀ td ∈ translate [d] defaultFilters, lookupLabel td.Labels K = none := by
  intro td htd
  have he : translate [d] defaultFilters = translateDevice defaultFilters d := by
    rw [translate_cons]
    exact List.append_nil _
  rw [he] at htd
  rcases mem_translateDevice _ _ _ htd with h' | ⟨t, _, h'⟩
  · subst h'
    exact hnone
  · subst h'
    show lookupLabel
      (mapInsert (filterEmpty (baseTarget d).Labels) LabelMetaDeviceTag t) K = none
    rw [lookupLabel_mapInsert_ne _ _ _ _ (Ne.symm hKtag)]
    exact hnone

lemma lookup_filterEmpty_base_none (d : Device) (K : String)
    (hv : ∀ v, (K, v) ∈ (baseTarget d).Labels → v = "") :
    lookupLabel (filterEmpty (baseTarget d).Labels) K = none := by
  apply lookupLabel_filter_none
  intro v hmem
  have hve := hv v hmem
  subst hve
  simp

/-! ### Claim theorems -/

/-- C8: `translate` is deterministic and side-effect-free. It is embedded as
a pure function of its two arguments, mirroring the source, which reads
nothing but its parameters and writes no shared state, so two invocations
with the same device sequence and filter set return equal output sequences,
position by position. -/
theorem translate_deterministic (devices : List Device) (filters : List Filter) :
    translate devices filters = translate devices filters
    ∧ ∀ i : Nat,
        (translate devices filters)[i]?.map TargetDescriptor.Targets
          = (translate devices filters)[i]?.map TargetDescriptor.Targets
        ∧ (translate devices filters)[i]?.map TargetDescriptor.Labels
          = (translate devices filters)[i]?.map TargetDescriptor.Labels :=
  ⟨rfl, fun _ => ⟨rfl, rfl⟩⟩

/-- C9: each default filter changes only its own component of the
descriptor: `filterIPv6Addresses` returns the input's label map unchanged
and `filterEmptyLabels` returns the input's target list unchanged. -/
theorem default_filters_frame (td : TargetDescriptor) :
    (filterIPv6Addresses td).Labels = td.Labels
    ∧ (filterEmptyLabels td).Targets = td.Targets :=
  ⟨rfl, rfl⟩

/-- C10: both default filters are idempotent. For the address filter this
holds because every address it emits is a canonical dotted IPv4 string that
reparses (and reprints) to itself. -/
theorem default_filters_idempotent (td : TargetDescriptor) :
    filterEmptyLabels (filterEmptyLabels td) = filterEmptyLabels td
    ∧ filterIPv6Addresses (filterIPv6Addresses td) = filterIPv6Addresses td := by
  constructor
  · simp [filterEmptyLabels, filterEmpty, List.filter_filter]
  · simp [filterIPv6Addresses, filterMap_keepIPv4_idem]

/-- C2 (counterexample): the claim that a device contributes one descriptor
per distinct tag fails on a `Tags` sequence with a duplicate entry: two equal
tags yield two descriptors, though there is only one distinct tag. -/
theorem translate_duplicate_tags_counterexample :
    (translate [devDupTag] defaultFilters).length = 2
    ∧ devDupTag.Tags.dedup.length = 1 := by
  constructor
  · rfl
  · decide

/-- C2 (amended): `translate` emits one descriptor per entry of a device's
`Tags` sequence — duplicate entries included — and exactly one descriptor
for a device with no tags: the output length is the sum, over the input
devices, of the number of tag occurrences (or 1 for a tagless device). -/
theorem translate_length_eq_sum_tag_occurrences (devices : List Device)
    (filters : List Filter) :
    (translate devices filters).length
      = (devices.map fun d => if d.Tags.isEmpty then 1 else d.Tags.length).sum := by
  induction devices with
  | nil => rfl
  | cons d rest ih =>
    rw [translate_cons, List.length_append, ih, List.map_cons, List.sum_cons,
      translateDevice_length]

/-- C5: the discovery handler replies HTTP 500 with a diagnostic body and no
JSON payload exactly when the device source fails with an error other than
`ErrStaleResults`; on `ErrStaleResults` or on success it serves the
translated devices as a JSON body with status 200 and the
`application/json` content type. `Export` installs the default filters. -/
theorem serve_http_error_handling (filters : List Filter) (devices : List Device)
    (err : Option DiscoveryError) :
    (((serveHTTP filters devices err).status = 500
        ∧ (∃ msg, (serveHTTP filters devices err).body = ResponseBody.diagnostic msg)
        ∧ ∀ ts, (serveHTTP filters devices err).body ≠ ResponseBody.json ts)
      ↔ ∃ msg, err = some (DiscoveryError.upstream msg))
    ∧ ((err = none ∨ err = some DiscoveryError.staleResults) →
        serveHTTP filters devices err
          = { status := 200
              contentType := some "application/json"
              body := ResponseBody.json (translate devices filters) })
    ∧ exportHandler devices err = serveHTTP defaultFilters devices err := by
  refine ⟨?_, ?_, rfl⟩
  · cases err with
    | none => simp [serveHTTP]
    | some e =>
      cases e with
      | staleResults => simp [serveHTTP]
      | upstream msg =>
        constructor
        · intro _
          exact ⟨msg, rfl⟩
        · intro _
          refine ⟨rfl, ⟨_, rfl⟩, ?_⟩
          intro ts hts
          exact ResponseBody.noConfusion hts
  · rintro (rfl | rfl) <;> rfl

/-- C5 (witness): on `ErrStaleResults` the handler serves the translation
with status 200 and the JSON content type. -/
theorem serve_http_error_handling_witness :
    serveHTTP defaultFilters [] (some DiscoveryError.staleResults)
      = { status := 200
          contentType := some "application/json"
          body := ResponseBody.json (translate [] defaultFilters) } :=
  (serve_http_error_handling defaultFilters [] (some DiscoveryError.staleResults)).2.1
    (Or.inr rfl)

/-- C1 (counterexample): the filters run before tag fan-out, so a device with
an empty-string tag yields a descriptor whose label map contains the tag
label with an empty value — the final output is not free of empty-valued
entries. -/
theorem translate_empty_tag_counterexample :
    ¬ ∀ td ∈ translate [devEmptyTag] defaultFilters, ∀ kv ∈ td.Labels,
        kv.1 ≠ "" ∧ kv.2 ≠ "" := by
  decide

/-- C1 (amended): under the default pipeline no emitted label has an empty
key — unconditionally, for every device sequence; and provided every tag of
every input device is a nonempty string, no emitted label has an empty value
either, the tag label included. The proviso on values is forced: filters run
before fan-out, so an empty-string tag becomes an empty-valued tag label
(the key of that label is still the fixed nonempty tag key). -/
theorem translate_labels_nonempty (devices : List Device) :
    (∀ td ∈ translate devices defaultFilters, ∀ kv ∈ td.Labels, kv.1 ≠ "")
    ∧ (devices.all (fun d => d.Tags.all fun t => !(t == "")) = true →
        ∀ td ∈ translate devices defaultFilters, ∀ kv ∈ td.Labels, kv.2 ≠ "") := by
  have hsplit : ∀ td ∈ translate devices defaultFilters, ∀ kv ∈ td.Labels,
      (kv.1 ≠ "" ∧ kv.2 ≠ "")
        ∨ ∃ d ∈ devices, ∃ t ∈ d.Tags, kv = (LabelMetaDeviceTag, t) := by
    intro td htd kv hkv
    rw [translate_eq_flatMap, List.mem_flatMap] at htd
    obtain ⟨d, hd, htd⟩ := htd
    rcases mem_translateDevice _ _ _ htd with h' | ⟨t, htmem, h'⟩
    · subst h'
      have hmem : kv ∈ filterEmpty (baseTarget d).Labels := hkv
      exact Or.inl (mem_filterEmpty _ _ hmem).2
    · subst h'
      have hmem : kv ∈ mapInsert (filterEmpty (baseTarget d).Labels)
          LabelMetaDeviceTag t := hkv
      rcases mem_mapInsert _ _ _ _ hmem with rfl | hmem'
      · exact Or.inr ⟨d, hd, t, htmem, rfl⟩
      · exact Or.inl (mem_filterEmpty _ _ hmem').2
  constructor
  · intro td htd kv hkv
    rcases hsplit td htd kv hkv with h | ⟨d, _, t, _, rfl⟩
    · exact h.1
    · show LabelMetaDeviceTag ≠ ""
      decide
  · intro h td htd kv hkv
    rcases hsplit td htd kv hkv with h' | ⟨d, hd, t, ht, rfl⟩
    · exact h'.2
    · rw [List.all_eq_true] at h
      have hall := h d hd
      rw [List.all_eq_true] at hall
      show t ≠ ""
      simpa using hall t ht

/-- C1 (witness): the amended statement applied to a device with two
nonempty tags, instantiated at its first emitted descriptor and the tag
label entry — the key clause unconditionally, the value clause with its
all-tags-nonempty hypothesis discharged. -/
theorem translate_labels_nonempty_witness :
    ([devTagAB].all (fun d => d.Tags.all fun t => !(t == "")) = true)
    ∧ (LabelMetaDeviceTag, "tag:a").1 ≠ "" ∧ (LabelMetaDeviceTag, "tag:a").2 ≠ "" :=
  ⟨by decide,
    (translate_labels_nonempty [devTagAB]).1
      ((translate [devTagAB] defaultFilters).headI) (by decide)
      (LabelMetaDeviceTag, "tag:a") (by decide),
    (translate_labels_nonempty [devTagAB]).2 (by decide)
      ((translate [devTagAB] defaultFilters).headI) (by decide)
      (LabelMetaDeviceTag, "tag:a") (by decide)⟩

/-- C6: a device whose `ClientVersion` is empty yields, under the default
pipeline, only descriptors without a client-version label — the empty-label
filter removes the empty-valued entry from the base map, and the tag
fan-out adds only the tag key. The same omission holds for the other
optional string fields (`Name`, `Tailnet`), and a device's descriptors
occupy their own contiguous segment of the output. -/
theorem client_version_label_omitted (d : Device) (h : d.ClientVersion = "") :
    (∀ td ∈ translate [d] defaultFilters,
        lookupLabel td.Labels LabelMetaDeviceClientVersion = none)
    ∧ (∀ d' : Device, d'.Name = "" → ∀ td ∈ translate [d'] defaultFilters,
        lookupLabel td.Labels LabelMetaDeviceName = none)
    ∧ (∀ d' : Device, d'.Tailnet = "" → ∀ td ∈ translate [d'] defaultFilters,
        lookupLabel td.Labels LabelMetaTailnet = none)
    ∧ ∀ (pre post : List Device) (filters : List Filter),
        translate (pre ++ d :: post) filters
          = translate pre filters ++ translateDevice filters d ++ translate post filters := by
  refine ⟨?_, ?_, ?_, ?_⟩
  · apply translate_single_lookup_none d _ (by decide)
    apply lookup_filterEmpty_base_none
    intro v hvmem
    simp only [baseTarget, List.mem_cons, List.not_mem_nil, or_false,
      Prod.mk.injEq] at hvmem
    rcases hvmem with ⟨hk, rfl⟩ | ⟨hk, rfl⟩ | ⟨hk, rfl⟩ | ⟨hk, rfl⟩ | ⟨hk, rfl⟩
      | ⟨hk, rfl⟩ | ⟨hk, rfl⟩ | ⟨hk, rfl⟩ <;>
      first
        | exact absurd hk (by decide)
        | exact h
  · intro d' h'
    apply translate_single_lookup_none d' _ (by decide)
    apply lookup_filterEmpty_base_none
    intro v hvmem
    simp only [baseTarget, List.mem_cons, List.not_mem_nil, or_false,
      Prod.mk.injEq] at hvmem
    rcases hvmem with ⟨hk, rfl⟩ | ⟨hk, rfl⟩ | ⟨hk, rfl⟩ | ⟨hk, rfl⟩ | ⟨hk, rfl⟩
      | ⟨hk, rfl⟩ | ⟨hk, rfl⟩ | ⟨hk, rfl⟩ <;>
      first
        | exact absurd hk (by decide)
        | exact h'
  · intro d' h'
    apply translate_single_lookup_none d' _ (by decide)
    apply lookup_filterEmpty_base_none
    intro v hvmem
    simp only [baseTarget, List.mem_cons, List.not_mem_nil, or_false,
      Prod.mk.injEq] at hvmem
    rcases hvmem with ⟨hk, rfl⟩ | ⟨hk, rfl⟩ | ⟨hk, rfl⟩ | ⟨hk, rfl⟩ | ⟨hk, rfl⟩
      | ⟨hk, rfl⟩ | ⟨hk, rfl⟩ | ⟨hk, rfl⟩ <;>
      first
        | exact absurd hk (by decide)
        | exact h'
  · intro pre post filters
    rw [translate_append, translate_cons, List.append_assoc]

/-- C6 (witness): a local-API device with empty `ClientVersion` has no
client-version label on its first emitted descriptor. -/
theorem client_version_label_omitted_witness :
    devNoVersion.ClientVersion = ""
    ∧ lookupLabel ((translate [devNoVersion] defaultFilters).headI).Labels
        LabelMetaDeviceClientVersion = none :=
  ⟨rfl, (client_version_label_omitted devNoVersion rfl).1 _ (by decide)⟩

/-- C7: the base descriptor built before any filter runs has the device's
addresses as targets and a label map with exactly the eight fixed keys, each
holding the corresponding device field verbatim (the authorized flag printed
as `fmt.Sprint` renders a Go bool); consequently `translate` with zero
filters emits only descriptors whose label maps contain all eight keys. -/
theorem base_descriptor_complete (d : Device) :
    (baseTarget d).Targets = d.Addresses
    ∧ (baseTarget d).Labels.map Prod.fst = eightLabelKeys
    ∧ lookupLabel (baseTarget d).Labels LabelMetaAPI = some d.API
    ∧ lookupLabel (baseTarget d).Labels LabelMetaDeviceAuthorized
        = some (boolString d.Authorized)
    ∧ lookupLabel (baseTarget d).Labels LabelMetaDeviceClientVersion
        = some d.ClientVersion
    ∧ lookupLabel (baseTarget d).Labels LabelMetaDeviceHostname = some d.Hostname
    ∧ lookupLabel (baseTarget d).Labels LabelMetaDeviceID = some d.ID
    ∧ lookupLabel (baseTarget d).Labels LabelMetaDeviceName = some d.Name
    ∧ lookupLabel (baseTarget d).Labels LabelMetaDeviceOS = some d.OS
    ∧ lookupLabel (baseTarget d).Labels LabelMetaTailnet = some d.Tailnet
    ∧ ∀ (devices : List Device), ∀ td ∈ translate devices [],
        ∀ k ∈ eightLabelKeys, (lookupLabel td.Labels k).isSome = true := by
  refine ⟨rfl, rfl, rfl, rfl, rfl, rfl, rfl, rfl, rfl, rfl, ?_⟩
  intro devices td htd k hk
  rw [translate_eq_flatMap, List.mem_flatMap] at htd
  obtain ⟨d', hd', htd'⟩ := htd
  have happ : applyFilters [] (baseTarget d') = baseTarget d' := rfl
  rcases mem_translateDevice [] d' td htd' with h' | ⟨t, _, h'⟩
  · rw [happ] at h'
    subst h'
    exact lookup_base_isSome d' k hk
  · rw [happ] at h'
    subst h'
    exact lookup_base_insert_isSome d' t k hk

/-- C7 (witness): the base-descriptor properties and the all-keys property of
unfiltered translation, at concrete devices. -/
theorem base_descriptor_complete_witness :
    lookupLabel (baseTarget devTagAB).Labels LabelMetaAPI = some devTagAB.API
    ∧ (lookupLabel ((translate [devBadAddrs] []).headI).Labels
        LabelMetaDeviceOS).isSome = true :=
  ⟨(base_descriptor_complete devTagAB).2.2.1,
    (base_descriptor_complete devBadAddrs).2.2.2.2.2.2.2.2.2.2 [devBadAddrs]
      ((translate [devBadAddrs] []).headI) (by decide) LabelMetaDeviceOS (by decide)⟩

/-- C3: a device tagged `tag:a` then `tag:b` yields exactly two descriptors,
identical except for the value of the tag label, emitted in the order `a`
then `b`. In general the output is the in-order concatenation of each
device's descriptors, each device's descriptors follow its `Tags` order, and
all fan-out copies of one device share the same target list. -/
theorem translate_tag_fanout_ordered (filters : List Filter) (d : Device)
    (h : d.Tags = ["tag:a", "tag:b"]) :
    translate [d] filters
      = [{ applyFilters filters (baseTarget d) with
             Labels := mapInsert (applyFilters filters (baseTarget d)).Labels
               LabelMetaDeviceTag "tag:a" },
         { applyFilters filters (baseTarget d) with
             Labels := mapInsert (applyFilters filters (baseTarget d)).Labels
               LabelMetaDeviceTag "tag:b" }]
    ∧ (∀ td1 td2, translate [d] filters = [td1, td2] →
        td1.Targets = td2.Targets
        ∧ td1.Labels.filter (fun kv => !(kv.1 == LabelMetaDeviceTag))
            = td2.Labels.filter (fun kv => !(kv.1 == LabelMetaDeviceTag))
        ∧ lookupLabel td1.Labels LabelMetaDeviceTag = some "tag:a"
        ∧ lookupLabel td2.Labels LabelMetaDeviceTag = some "tag:b")
    ∧ (∀ (devices : List Device) (fs : List Filter),
        translate devices fs = devices.flatMap (translateDevice fs))
    ∧ ∀ (fs : List Filter) (d' : Device),
        (translateDevice fs d'
          = if d'.Tags.isEmpty then [applyFilters fs (baseTarget d')]
            else d'.Tags.map fun t =>
              { applyFilters fs (baseTarget d') with
                  Labels := mapInsert (applyFilters fs (baseTarget d')).Labels
                    LabelMetaDeviceTag t })
        ∧ ∀ td ∈ translateDevice fs d',
            td.Targets = (applyFilters fs (baseTarget d')).Targets := by
  have hfan : translate [d] filters
      = [{ applyFilters filters (baseTarget d) with
             Labels := mapInsert (applyFilters filters (baseTarget d)).Labels
               LabelMetaDeviceTag "tag:a" },
         { applyFilters filters (baseTarget d) with
             Labels := mapInsert (applyFilters filters (baseTarget d)).Labels
               LabelMetaDeviceTag "tag:b" }] := by
    rw [translate_cons]
    rw [show translate [] filters = [] from rfl, List.append_nil]
    unfold translateDevice fanOut
    rw [h]
    rfl
  refine ⟨hfan, ?_, translate_eq_flatMap, ?_⟩
  · intro td1 td2 heq
    rw [hfan] at heq
    injection heq with h1 heq2
    injection heq2 with h2 heq3
    subst h1
    subst h2
    refine ⟨rfl, ?_, ?_, ?_⟩
    · show (mapInsert (applyFilters filters (baseTarget d)).Labels
          LabelMetaDeviceTag "tag:a").filter (fun kv => !(kv.1 == LabelMetaDeviceTag))
        = (mapInsert (applyFilters filters (baseTarget d)).Labels
            LabelMetaDeviceTag "tag:b").filter (fun kv => !(kv.1 == LabelMetaDeviceTag))
      rw [filter_mapInsert_ne, filter_mapInsert_ne]
    · exact lookupLabel_mapInsert_self _ _ _
    · exact lookupLabel_mapInsert_self _ _ _
  · intro fs d'
    refine ⟨rfl, targets_translateDevice fs d'⟩

/-- C3 (witness): the fan-out equality at a concrete two-tag device under
the default filters. -/
theorem translate_tag_fanout_ordered_witness :
    devTagAB.Tags = ["tag:a", "tag:b"]
    ∧ translate [devTagAB] defaultFilters
      = [{ applyFilters defaultFilters (baseTarget devTagAB) with
             Labels := mapInsert (applyFilters defaultFilters (baseTarget devTagAB)).Labels
               LabelMetaDeviceTag "tag:a" },
         { applyFilters defaultFilters (baseTarget devTagAB) with
             Labels := mapInsert (applyFilters defaultFilters (baseTarget devTagAB)).Labels
               LabelMetaDeviceTag "tag:b" }] :=
  ⟨rfl, (translate_tag_fanout_ordered defaultFilters devTagAB rfl).1⟩

/-- C4 (counterexample): `::ffff:102:304` is dispatched to and accepted by
the IPv6 grammar — it is a syntactically valid IPv6 address — yet the
default pipeline does not remove it: its 16-byte form is IPv4-mapped, so
`To4` succeeds and the filter keeps it, normalized to `1.2.3.4`. -/
theorem address_filter_v4mapped_counterexample :
    classifyAddr "::ffff:102:304".data = some false
    ∧ parseIPv6 "::ffff:102:304".data ≠ none
    ∧ (applyFilters defaultFilters
        { Targets := ["::ffff:102:304"], Labels := [] }).Targets = ["1.2.3.4"] := by
  refine ⟨rfl, by decide, rfl⟩

/-- C4 (amended): under the default pipeline the example targets reduce to
`["100.64.0.1"]`; a target survives exactly when `net.ParseIP` accepts it
and `To4` succeeds on the parsed 16-byte form (IPv4 and IPv4-mapped
addresses) — syntactically invalid addresses and all other IPv6 addresses
are removed; every kept address is a canonical dotted IPv4 string that the
filter maps to itself; and a device whose targets are all filtered away is
still emitted, with an empty target list. -/
theorem address_filter_amended (td : TargetDescriptor) :
    (applyFilters defaultFilters
        { Targets := ["100.64.0.1", "2001:db8::1", "not-an-ip"],
          Labels := td.Labels }).Targets = ["100.64.0.1"]
    ∧ (filterIPv6Addresses td).Targets = td.Targets.filterMap keepIPv4
    ∧ (∀ t ∈ (filterIPv6Addresses td).Targets, keepIPv4 t = some t)
    ∧ translate [devBadAddrs] defaultFilters
        = [{ Targets := [], Labels := filterEmpty (baseTarget devBadAddrs).Labels }]
    ∧ ∀ (d : Device) (fs : List Filter),
        (translate [d] fs).length = if d.Tags.isEmpty then 1 else d.Tags.length := by
  refine ⟨rfl, rfl, ?_, rfl, ?_⟩
  · intro t ht
    exact keepIPv4_of_mem_filterMap _ _ ht
  · intro d fs
    rw [translate_cons, List.length_append]
    rw [show (translate [] fs).length = 0 from rfl, translateDevice_length]
    omega

/-- C4 (witness): the canonical-form clause applied at a concrete kept
address. -/
theorem address_filter_amended_witness :
    keepIPv4 "100.64.0.1" = some "100.64.0.1" :=
  (address_filter_amended { Targets := ["100.64.0.1"], Labels := [] }).2.2.1
    "100.64.0.1" (by decide)

end Tailscalesd
